import Mathlib

set_option maxRecDepth 10000

/-!
Verification of the rlite storage core: a shallow embedding of the row codec
(`src/tokenizer.rs` / `src/main.rs`), the page cache and file-backed table
(`src/pager.rs`), and the in-memory table plus statement execution
(`src/main.rs`).  Bytes are modelled as `Nat` (values `< 256` where it
matters), files and pages as `List Nat`, fallible paths as `Option`/`Except`,
and the Rust panic on out-of-range array indexing as an explicit outcome.
-/

/-! ### Constants (src/main.rs lines 3-15, re-exported as crate::constants) -/

def COLUMN_USERNAME_SIZE : Nat := 32
def COLUMN_EMAIL_SIZE : Nat := 255
def ID_SIZE : Nat := 4
def USERNAME_SIZE : Nat := 32
def EMAIL_SIZE : Nat := 255
def ID_OFFSET : Nat := 0
def USERNAME_OFFSET : Nat := ID_OFFSET + ID_SIZE
def EMAIL_OFFSET : Nat := USERNAME_OFFSET + USERNAME_SIZE
def ROW_SIZE : Nat := ID_SIZE + USERNAME_SIZE + EMAIL_SIZE
def PAGE_SIZE : Nat := 4096
def TABLE_MAX_PAGES : Nat := 100
def ROWS_PER_PAGE : Nat := PAGE_SIZE / ROW_SIZE
def TABLE_MAX_ROWS : Nat := ROWS_PER_PAGE * TABLE_MAX_PAGES

theorem ROW_SIZE_eq : ROW_SIZE = 291 := rfl

theorem ROWS_PER_PAGE_eq : ROWS_PER_PAGE = 14 := rfl

theorem TABLE_MAX_ROWS_eq : TABLE_MAX_ROWS = 1400 := rfl

/-! ### Row codec (src/tokenizer.rs lines 88-121; identical copy in src/main.rs).

In Rust `Row` is `{ id: u32, username: [u8; 32], email: [u8; 255] }`; here the
fixed-size byte arrays become lists and `Row.WF` records the sizes the Rust
types enforce (`id` fits in 32 bits, buffers have their declared lengths). -/

structure Row where
  id : Nat
  username : List Nat
  email : List Nat
deriving DecidableEq, Repr

def Row.WF (r : Row) : Prop :=
  r.id < 2 ^ 32 ∧ r.username.length = USERNAME_SIZE ∧ r.email.length = EMAIL_SIZE

instance (r : Row) : Decidable r.WF := by unfold Row.WF; infer_instance

/-- `u32::to_le_bytes`. -/
def u32ToLeBytes (n : Nat) : List Nat :=
  [n % 256, n / 256 % 256, n / 256 ^ 2 % 256, n / 256 ^ 3 % 256]

/-- `u32::from_le_bytes`. -/
def u32FromLeBytes (l : List Nat) : Nat :=
  l.foldr (fun b acc => b + 256 * acc) 0

/-- `Row::serialize` (src/tokenizer.rs lines 112-121): a zeroed 291-byte array
with the id's little-endian bytes copied at `ID_OFFSET`, the username buffer at
`USERNAME_OFFSET` and the email buffer at `EMAIL_OFFSET`; since the three
copies are contiguous and exactly cover the array, this is their
concatenation. -/
def Row.serialize (r : Row) : List Nat :=
  u32ToLeBytes r.id ++ r.username ++ r.email

/-- `Row::deserialize` (src/tokenizer.rs lines 95-110). -/
def Row.deserialize (bytes : List Nat) : Row :=
  { id := u32FromLeBytes ((bytes.drop ID_OFFSET).take ID_SIZE)
  , username := (bytes.drop USERNAME_OFFSET).take USERNAME_SIZE
  , email := (bytes.drop EMAIL_OFFSET).take EMAIL_SIZE }

theorem u32ToLeBytes_length (n : Nat) : (u32ToLeBytes n).length = 4 := rfl

theorem Row.serialize_length {r : Row} (h : r.WF) : r.serialize.length = ROW_SIZE := by
  obtain ⟨-, hu, he⟩ := h
  simp [Row.serialize, u32ToLeBytes, hu, he, ROW_SIZE, ID_SIZE, USERNAME_SIZE, EMAIL_SIZE]

theorem u32_le_roundtrip {n : Nat} (h : n < 2 ^ 32) :
    u32FromLeBytes (u32ToLeBytes n) = n := by
  simp only [u32ToLeBytes, u32FromLeBytes, List.foldr]
  omega

theorem deserialize_serialize {r : Row} (h : r.WF) :
    Row.deserialize r.serialize = r := by
  obtain ⟨hid, hu, he⟩ := h
  obtain ⟨id, u, e⟩ := r
  simp only [Row.username, Row.email,
    show USERNAME_SIZE = 32 from rfl, show EMAIL_SIZE = 255 from rfl] at hu he
  simp only [Row.id] at hid
  have h4 : (u32ToLeBytes id).length = 4 := rfl
  simp only [Row.deserialize, Row.serialize,
    show ID_OFFSET = 0 from rfl, show ID_SIZE = 4 from rfl,
    show USERNAME_OFFSET = 4 from rfl, show USERNAME_SIZE = 32 from rfl,
    show EMAIL_OFFSET = 36 from rfl, show EMAIL_SIZE = 255 from rfl,
    List.drop_zero]
  congr 1
  · rw [List.append_assoc, List.take_append_of_le_length (le_of_eq h4.symm),
      List.take_of_length_le (le_of_eq h4), u32_le_roundtrip hid]
  · rw [List.append_assoc, List.drop_left' h4,
      List.take_append_of_le_length (le_of_eq hu.symm),
      List.take_of_length_le (le_of_eq hu)]
  · rw [List.drop_left' (by simp [h4, hu]),
      List.take_of_length_le (le_of_eq he)]

/-- A concrete record used by witnesses. -/
def row0 : Row :=
  { id := 1, username := List.replicate 32 0, email := List.replicate 255 0 }

/-- C4: `deserialize(serialize(r)) == r` for every representable record. -/
theorem claim_C4_roundtrip (r : Row) (hid : r.id < 2 ^ 32)
    (hu : r.username.length = USERNAME_SIZE) (he : r.email.length = EMAIL_SIZE) :
    Row.deserialize r.serialize = r :=
  deserialize_serialize ⟨hid, hu, he⟩

/-- C4 witness: the round trip at a concrete record. -/
theorem claim_C4_roundtrip_witness :
    Row.deserialize row0.serialize = row0 :=
  claim_C4_roundtrip row0 (by decide) (by decide) (by decide)

/-! ### Pager (src/pager.rs lines 8-100).

The backing file and page buffers are byte lists.  `Pager::new` is modelled on
an already-read file image (its I/O and integer-conversion failures have no
counterpart here), so `file_length` is the image's length.  Rust's
`self.pages[page_num]` on the `[Page; 100]` array panics when
`page_num ≥ 100`; that outcome is the explicit `panicked` result. -/

inductive PageError where
  | fetchOutOfBounds (i : Nat)
deriving DecidableEq, Repr

structure Pager where
  fileBytes : List Nat
  fileLength : Nat
  pages : Nat → Option (List Nat)

/-- Pointwise update standing for the Rust array store `self.pages[i] = v`. -/
def setPage (f : Nat → Option (List Nat)) (i : Nat) (v : Option (List Nat)) :
    Nat → Option (List Nat) :=
  fun j => if j = i then v else f j

/-- `Pager::new` (src/pager.rs lines 50-64) on a given file image. -/
def Pager.new (file : List Nat) : Pager :=
  { fileBytes := file, fileLength := file.length, pages := fun _ => none }

def zeroPage : List Nat := List.replicate PAGE_SIZE 0

/-- The bytes `file.read` leaves in the zero-filled buffer after seeking to
`pageNum * PAGE_SIZE`: up to `PAGE_SIZE` available bytes, remainder zero. -/
def readPageBytes (file : List Nat) (pageNum : Nat) : List Nat :=
  let chunk := (file.drop (pageNum * PAGE_SIZE)).take PAGE_SIZE
  chunk ++ List.replicate (PAGE_SIZE - chunk.length) 0

inductive GetPageResult where
  | ok (p : Pager) (page : List Nat)
  | err (e : PageError)
  | panicked

/-- `Pager::get_page` (src/pager.rs lines 66-88).  The guard is `page_num >
TABLE_MAX_PAGES` (strict), so `page_num = 100` passes the guard and the array
index `self.pages[100]` panics. -/
def Pager.getPage (p : Pager) (pageNum : Nat) : GetPageResult :=
  if pageNum > TABLE_MAX_PAGES then .err (.fetchOutOfBounds pageNum)
  else if pageNum < TABLE_MAX_PAGES then
    match p.pages pageNum with
    | some page => .ok p page
    | none =>
      -- num_pages = file_length.div_ceil(PAGE_SIZE)
      let numPages := (p.fileLength + PAGE_SIZE - 1) / PAGE_SIZE
      let page :=
        if pageNum ≤ numPages then readPageBytes p.fileBytes pageNum else zeroPage
      .ok { p with pages := setPage p.pages pageNum (some page) } page
  else .panicked

/-- Seek to `off` (zero-filling any gap past end-of-file) and overwrite with
`data`, keeping any bytes beyond the written range. -/
def writeAt (file : List Nat) (off : Nat) (data : List Nat) : List Nat :=
  file.take off ++ List.replicate (off - file.length) 0 ++ data
    ++ file.drop (off + data.length)

/-- `Pager::flush` (src/pager.rs lines 90-99): if the slot holds a page, write
its first `size` bytes at offset `page_num * PAGE_SIZE`. -/
def Pager.flush (p : Pager) (pageNum size : Nat) : Pager :=
  match p.pages pageNum with
  | some page =>
      { p with fileBytes := writeAt p.fileBytes (pageNum * PAGE_SIZE) (page.take size) }
  | none => p

def Pager.clearSlot (p : Pager) (i : Nat) : Pager :=
  { p with pages := setPage p.pages i none }

/-! ### Table over the Pager (src/pager.rs lines 102-154). -/

structure Table where
  numRows : Nat
  pager : Pager

/-- `Table::new` (src/pager.rs lines 108-113). -/
def Table.new (file : List Nat) : Table :=
  let pager := Pager.new file
  { numRows := pager.fileLength / ROW_SIZE, pager := pager }

theorem Table.new_numRows (file : List Nat) :
    (Table.new file).numRows = file.length / ROW_SIZE := rfl

/-- `Table::row_slot` (src/pager.rs lines 116-124), read form: the 291-byte
range at `(row_num % ROWS_PER_PAGE) * ROW_SIZE` inside page
`row_num / ROWS_PER_PAGE`, together with the table after the page load.
`none` models the `unwrap` panicking. -/
def Table.rowSlotGet (t : Table) (rowNum : Nat) : Option (Table × List Nat) :=
  let pageNum := rowNum / ROWS_PER_PAGE
  match t.pager.getPage pageNum with
  | .ok p page =>
      let byteOffset := (rowNum % ROWS_PER_PAGE) * ROW_SIZE
      some ({ t with pager := p }, (page.drop byteOffset).take ROW_SIZE)
  | _ => none

/-- `Table::row_slot` followed by overwriting the returned 291-byte slice
(as `execute_insert`'s `copy_from_slice` does); the mutation lands in the
cached page buffer. -/
def Table.rowSlotWrite (t : Table) (rowNum : Nat) (data : List Nat) : Option Table :=
  let pageNum := rowNum / ROWS_PER_PAGE
  match t.pager.getPage pageNum with
  | .ok p page =>
      let byteOffset := (rowNum % ROWS_PER_PAGE) * ROW_SIZE
      let page2 := page.take byteOffset ++ data ++ page.drop (byteOffset + ROW_SIZE)
      some { t with pager := { p with pages := setPage p.pages pageNum (some page2) } }
  | _ => none

/-- One insertion through the pager-backed table: write the serialized record
via `row_slot` at the current `num_rows`, then increment `num_rows`. -/
def Table.insertRow (t : Table) (r : Row) : Option Table :=
  (t.rowSlotWrite t.numRows r.serialize).map fun t2 => { t2 with numRows := t2.numRows + 1 }

def Table.insertAll (t : Table) (rows : List Row) : Option Table :=
  rows.foldlM Table.insertRow t

/-- The first loop of `Drop for Table` (src/pager.rs lines 132-138): flush and
clear the page slots `0, 1, ..., n-1` in order. -/
def flushFullPages (p : Pager) : Nat → Pager
  | 0 => p
  | n + 1 => ((flushFullPages p n).flush n PAGE_SIZE).clearSlot n

/-- `Drop for Table` (src/pager.rs lines 127-154): flush every fully populated
page with all `PAGE_SIZE` bytes, then a trailing partial page (if any) with
only its occupied prefix, then clear every remaining slot. -/
def Table.dropTable (t : Table) : Pager :=
  let numFullPages := t.numRows / ROWS_PER_PAGE
  let p1 := flushFullPages t.pager numFullPages
  let numAdditionalRows := t.numRows % ROWS_PER_PAGE
  let p2 :=
    if 0 < numAdditionalRows then
      match p1.pages numFullPages with
      | some _ => (p1.flush numFullPages (numAdditionalRows * ROW_SIZE)).clearSlot numFullPages
      | none => p1
    else p1
  { p2 with pages := fun _ => none }

/-! ### C2: get_page bounds behaviour. -/

/-- C2 (code bug evidence): at `page_num = 100` — an invalid page index, the
pager has slots `0..=99` — `get_page` passes the `page_num > TABLE_MAX_PAGES`
guard and panics on the array index instead of returning the out-of-bounds
error; only `page_num > 100` yields the error. -/
theorem claim_C2_getPage_bounds :
    (Pager.new []).getPage TABLE_MAX_PAGES = .panicked ∧
      (Pager.new []).getPage (TABLE_MAX_PAGES + 1) =
        .err (.fetchOutOfBounds (TABLE_MAX_PAGES + 1)) ∧
      (∀ n : Nat, n > TABLE_MAX_PAGES →
        (Pager.new []).getPage n = .err (.fetchOutOfBounds n)) := by
  refine ⟨rfl, rfl, fun n hn => ?_⟩
  unfold Pager.getPage
  rw [if_pos hn]

/-! ### C7: row count derived from file length. -/

/-- C7: opening a table computes `num_rows = file_length / ROW_SIZE` by floor
division; when the length is not row-aligned the trailing partial row is
silently dropped — the counted rows cover at most `file_length` bytes and the
ignored tail is shorter than one row — and no error is reported (`Table.new`
is total). -/
theorem claim_C7_open_row_count (file : List Nat) :
    (Table.new file).numRows = file.length / ROW_SIZE ∧
      ROW_SIZE * (Table.new file).numRows ≤ file.length ∧
      (file.length % ROW_SIZE ≠ 0 →
        ROW_SIZE * (Table.new file).numRows < file.length ∧
          file.length - ROW_SIZE * (Table.new file).numRows < ROW_SIZE) := by
  refine ⟨rfl, Nat.mul_div_le _ _, fun h => ?_⟩
  have h1 : (Table.new file).numRows = file.length / ROW_SIZE := rfl
  rw [h1, ROW_SIZE_eq] at *
  omega

/-- C7 witness: a 300-byte file (not a multiple of 291) opens with one row and
a 9-byte ignored tail. -/
theorem claim_C7_open_row_count_witness :
    (Table.new (List.replicate 300 0)).numRows = (List.replicate 300 (0 : Nat)).length / ROW_SIZE ∧
      ROW_SIZE * (Table.new (List.replicate 300 0)).numRows ≤ (List.replicate 300 (0 : Nat)).length ∧
      ((List.replicate 300 (0 : Nat)).length % ROW_SIZE ≠ 0 →
        ROW_SIZE * (Table.new (List.replicate 300 0)).numRows < (List.replicate 300 (0 : Nat)).length ∧
          (List.replicate 300 (0 : Nat)).length - ROW_SIZE * (Table.new (List.replicate 300 0)).numRows < ROW_SIZE) :=
  claim_C7_open_row_count (List.replicate 300 0)

/-! ### C8: a populated slot is served from memory, unchanged. -/

/-- C8: for a valid `page_num` whose slot already holds a buffer, `get_page`
returns exactly that buffer and leaves the pager (file image included)
untouched — no re-read from disk, so cached mutations stay visible. -/
theorem claim_C8_getPage_cached (p : Pager) (pageNum : Nat) (buf : List Nat)
    (hlt : pageNum < TABLE_MAX_PAGES) (hs : p.pages pageNum = some buf) :
    p.getPage pageNum = .ok p buf := by
  unfold Pager.getPage
  rw [if_neg (by omega), if_pos hlt, hs]

/-- C8 witness: a pager with page 0 cached returns the cached buffer. -/
theorem claim_C8_getPage_cached_witness :
    ({ fileBytes := [], fileLength := 0,
       pages := setPage (fun _ => none) 0 (some zeroPage) } : Pager).getPage 0 =
      .ok { fileBytes := [], fileLength := 0,
            pages := setPage (fun _ => none) 0 (some zeroPage) } zeroPage :=
  claim_C8_getPage_cached _ 0 zeroPage (by decide) rfl

/-! ### Slice helper lemmas. -/

theorem length_take_of_le {l : List Nat} {n : Nat} (h : n ≤ l.length) :
    (l.take n).length = n := by
  simp [List.length_take, Nat.min_eq_left h]

/-- Reading back the 291-byte slice just overwritten inside a page. -/
theorem slice_write_readback (page data : List Nat) (off : Nat)
    (hoff : off ≤ page.length) (hdata : data.length = ROW_SIZE) :
    ((page.take off ++ data ++ page.drop (off + ROW_SIZE)).drop off).take ROW_SIZE
      = data := by
  rw [List.append_assoc, List.drop_left' (length_take_of_le hoff),
    List.take_append_of_le_length (le_of_eq hdata.symm),
    List.take_of_length_le (le_of_eq hdata)]

/-- A 291-byte slice lying strictly before the overwritten range is
untouched. -/
theorem slice_write_frame_before (page data : List Nat) (off o : Nat)
    (hoff : off ≤ page.length) (ho : o + ROW_SIZE ≤ off) :
    ((page.take off ++ data ++ page.drop (off + ROW_SIZE)).drop o).take ROW_SIZE
      = (page.drop o).take ROW_SIZE := by
  rw [List.append_assoc,
    List.drop_append_of_le_length (by rw [length_take_of_le hoff]; omega),
    List.take_append_of_le_length
      (by rw [List.length_drop, length_take_of_le hoff]; omega),
    List.drop_take, List.take_take, Nat.min_eq_left (by omega)]

/-! ### C6: row addressing through the pager-backed table. -/

/-- All cached pages hold exactly `PAGE_SIZE` bytes. -/
def PagerWF (p : Pager) : Prop :=
  ∀ j page, p.pages j = some page → page.length = PAGE_SIZE

theorem readPageBytes_length (file : List Nat) (pageNum : Nat) :
    (readPageBytes file pageNum).length = PAGE_SIZE := by
  simp only [readPageBytes, List.length_append, List.length_replicate,
    List.length_take, List.length_drop]
  omega

theorem zeroPage_length : zeroPage.length = PAGE_SIZE := by
  simp [zeroPage]

theorem setPage_WF {p : Pager} (h : PagerWF p) {i : Nat} {page : List Nat}
    (hpage : page.length = PAGE_SIZE) :
    PagerWF { p with pages := setPage p.pages i (some page) } := by
  intro j q hq
  simp only [setPage] at hq
  by_cases hji : j = i
  · rw [if_pos hji] at hq; cases hq; exact hpage
  · rw [if_neg hji] at hq; exact h j q hq

/-- `get_page` on a valid page number always succeeds in the model (no I/O
failures) and yields a full page, preserving the file image. -/
theorem getPage_ok {p : Pager} (hWF : PagerWF p) {j : Nat} (hj : j < TABLE_MAX_PAGES) :
    ∃ p' page, p.getPage j = .ok p' page ∧ page.length = PAGE_SIZE ∧ PagerWF p' ∧
      p'.fileBytes = p.fileBytes ∧ p'.fileLength = p.fileLength := by
  unfold Pager.getPage
  rw [if_neg (by omega), if_pos hj]
  cases hslot : p.pages j with
  | some page => exact ⟨p, page, rfl, hWF j page hslot, hWF, rfl, rfl⟩
  | none =>
    refine ⟨_, _, rfl, ?_, ?_, rfl, rfl⟩
    · by_cases hle : j ≤ (p.fileLength + PAGE_SIZE - 1) / PAGE_SIZE
      · rw [if_pos hle]; exact readPageBytes_length _ _
      · rw [if_neg hle]; exact zeroPage_length
    · apply setPage_WF hWF
      by_cases hle : j ≤ (p.fileLength + PAGE_SIZE - 1) / PAGE_SIZE
      · rw [if_pos hle]; exact readPageBytes_length _ _
      · rw [if_neg hle]; exact zeroPage_length

/-- C6: for any row index `i` in the addressable range, `row_slot(i)` succeeds
and returns exactly the `ROW_SIZE`-byte range starting at byte offset
`(i % ROWS_PER_PAGE) * ROW_SIZE` within page `i / ROWS_PER_PAGE`; the slot is
291 bytes long and lies entirely inside the 4096-byte page. -/
theorem claim_C6_row_addressing (t : Table) (i : Nat)
    (hWF : PagerWF t.pager) (hi : i < TABLE_MAX_ROWS) :
    ∃ p page, t.pager.getPage (i / ROWS_PER_PAGE) = .ok p page ∧
      page.length = PAGE_SIZE ∧
      t.rowSlotGet i =
        some ({ numRows := t.numRows, pager := p },
              (page.drop ((i % ROWS_PER_PAGE) * ROW_SIZE)).take ROW_SIZE) ∧
      ((page.drop ((i % ROWS_PER_PAGE) * ROW_SIZE)).take ROW_SIZE).length = ROW_SIZE ∧
      (i % ROWS_PER_PAGE) * ROW_SIZE + ROW_SIZE ≤ PAGE_SIZE := by
  have hj : i / ROWS_PER_PAGE < TABLE_MAX_PAGES := by
    rw [ROWS_PER_PAGE_eq, show TABLE_MAX_PAGES = 100 from rfl]
    rw [TABLE_MAX_ROWS_eq] at hi
    omega
  obtain ⟨p, page, hget, hplen, -, -, -⟩ := getPage_ok hWF hj
  have hmod : i % ROWS_PER_PAGE * ROW_SIZE + ROW_SIZE ≤ PAGE_SIZE := by
    rw [ROWS_PER_PAGE_eq, ROW_SIZE_eq, show PAGE_SIZE = 4096 from rfl]
    have h14 : i % 14 < 14 := Nat.mod_lt i (by omega)
    omega
  refine ⟨p, page, hget, hplen, ?_, ?_, hmod⟩
  · simp only [Table.rowSlotGet]
    rw [hget]
  · rw [ROWS_PER_PAGE_eq, ROW_SIZE_eq, show PAGE_SIZE = 4096 from rfl] at hmod
    simp only [List.length_take, List.length_drop, hplen,
      ROWS_PER_PAGE_eq, ROW_SIZE_eq, show PAGE_SIZE = 4096 from rfl]
    omega

/-- C6 witness: row 15 of a freshly opened empty table addresses page 1 at
offset 291. -/
theorem claim_C6_row_addressing_witness :
    ∃ p page, (Table.new []).pager.getPage (15 / ROWS_PER_PAGE) = .ok p page ∧
      page.length = PAGE_SIZE ∧
      (Table.new []).rowSlotGet 15 =
        some ({ numRows := (Table.new []).numRows, pager := p },
              (page.drop ((15 % ROWS_PER_PAGE) * ROW_SIZE)).take ROW_SIZE) ∧
      ((page.drop ((15 % ROWS_PER_PAGE) * ROW_SIZE)).take ROW_SIZE).length = ROW_SIZE ∧
      (15 % ROWS_PER_PAGE) * ROW_SIZE + ROW_SIZE ≤ PAGE_SIZE :=
  claim_C6_row_addressing (Table.new []) 15
    (fun _ _ h => by simp [Table.new, Pager.new] at h) (by decide)

/-! ### In-memory table and statement execution (src/main.rs lines 238-291).

`main.rs` carries its own `Table` with pages held directly in memory (no
file); `row_slot` materialises a zero page on first touch via
`get_or_insert`.  The claims exercised here stay below `TABLE_MAX_ROWS`, so
the array index in `row_slot` is always in range. -/

namespace Main

structure Table where
  numRows : Nat
  pages : Nat → Option (List Nat)

def Table.new : Table :=
  { numRows := 0, pages := fun _ => none }

def TableWF (t : Table) : Prop :=
  ∀ j page, t.pages j = some page → page.length = PAGE_SIZE

/-- `Table::row_slot` (src/main.rs lines 251-259), read form: the table after
`get_or_insert` plus the 291-byte slot contents. -/
def Table.rowSlotRead (t : Table) (rowNum : Nat) : Table × List Nat :=
  let pageNum := rowNum / ROWS_PER_PAGE
  let page := (t.pages pageNum).getD zeroPage
  let byteOffset := (rowNum % ROWS_PER_PAGE) * ROW_SIZE
  ({ t with pages := setPage t.pages pageNum (some page) },
   (page.drop byteOffset).take ROW_SIZE)

/-- `Table::row_slot` followed by `copy_from_slice` of a 291-byte buffer into
the returned slice. -/
def Table.rowSlotWrite (t : Table) (rowNum : Nat) (data : List Nat) : Table :=
  let pageNum := rowNum / ROWS_PER_PAGE
  let page := (t.pages pageNum).getD zeroPage
  let byteOffset := (rowNum % ROWS_PER_PAGE) * ROW_SIZE
  let page2 := page.take byteOffset ++ data ++ page.drop (byteOffset + ROW_SIZE)
  { t with pages := setPage t.pages pageNum (some page2) }

inductive StatementType where
  | insert
  | select
deriving DecidableEq, Repr

structure Statement where
  stype : StatementType
  row : Option Row
deriving DecidableEq, Repr

inductive ExecuteError where
  | tableFull
deriving DecidableEq, Repr

/-- `execute_insert` (src/main.rs lines 262-274); the returned pair is the
table after the call plus the `Result` (Rust mutates through `&mut`). -/
def executeInsert (st : Statement) (t : Table) : Table × Option ExecuteError :=
  if t.numRows ≥ TABLE_MAX_ROWS then (t, some .tableFull)
  else
    let t2 :=
      match st.row with
      | some r => t.rowSlotWrite t.numRows r.serialize
      | none => (t.rowSlotRead t.numRows).1
    ({ t2 with numRows := t2.numRows + 1 }, none)

end Main

/-- C5: with `num_rows` at the 1400-row capacity, `execute_insert` returns the
table-full error with the table untouched; below capacity it succeeds,
serializes the record into the row slot at index `num_rows`, and increments
`num_rows` by one. -/
theorem claim_C5_insert_capacity (st : Main.Statement) (r : Row) (t : Main.Table)
    (hrow : st.row = some r) (hwf : r.WF) (hT : Main.TableWF t) :
    (t.numRows ≥ TABLE_MAX_ROWS → Main.executeInsert st t = (t, some .tableFull)) ∧
      (t.numRows < TABLE_MAX_ROWS →
        ∃ t2, Main.executeInsert st t = (t2, none) ∧
          t2.numRows = t.numRows + 1 ∧
          (t2.rowSlotRead t.numRows).2 = r.serialize) := by
  constructor
  · intro hfull
    simp only [Main.executeInsert, if_pos hfull]
  · intro hlt
    simp only [Main.executeInsert, if_neg (by omega : ¬ t.numRows ≥ TABLE_MAX_ROWS), hrow]
    refine ⟨_, rfl, rfl, ?_⟩
    simp only [Main.Table.rowSlotWrite, Main.Table.rowSlotRead, setPage,
      if_pos rfl, Option.getD_some]
    apply slice_write_readback
    · cases hpage : t.pages (t.numRows / ROWS_PER_PAGE) with
      | none =>
          simp only [hpage, Option.getD_none, zeroPage_length]
          rw [ROWS_PER_PAGE_eq, ROW_SIZE_eq, show PAGE_SIZE = 4096 from rfl]
          have := Nat.mod_lt t.numRows (show 0 < 14 from by omega)
          omega
      | some page =>
          simp only [hpage, Option.getD_some]
          rw [Main.TableWF] at hT
          rw [hT _ _ hpage]
          rw [ROWS_PER_PAGE_eq, ROW_SIZE_eq, show PAGE_SIZE = 4096 from rfl]
          have := Nat.mod_lt t.numRows (show 0 < 14 from by omega)
          omega
    · exact Row.serialize_length hwf

/-- A one-row insert statement used by witnesses. -/
def stmt0 : Main.Statement := { stype := .insert, row := some row0 }

/-- C5 witness: instantiated at an empty in-memory table and a concrete
insert statement. -/
theorem claim_C5_insert_capacity_witness :
    (Main.Table.new.numRows ≥ TABLE_MAX_ROWS →
        Main.executeInsert stmt0 Main.Table.new = (Main.Table.new, some .tableFull)) ∧
      (Main.Table.new.numRows < TABLE_MAX_ROWS →
        ∃ t2, Main.executeInsert stmt0 Main.Table.new = (t2, none) ∧
          t2.numRows = Main.Table.new.numRows + 1 ∧
          (t2.rowSlotRead Main.Table.new.numRows).2 = row0.serialize) :=
  claim_C5_insert_capacity stmt0 row0 Main.Table.new rfl (by decide)
    (fun _ page h => by simp [Main.Table.new] at h)

/-- C9: a successful insert touches only the row slot at index `num_rows`:
every earlier slot reads back byte-for-byte the same, and `num_rows` grows by
exactly one. -/
theorem claim_C9_insert_frame (st : Main.Statement) (r : Row) (t : Main.Table)
    (hrow : st.row = some r) (hwf : r.WF) (hT : Main.TableWF t)
    (hlt : t.numRows < TABLE_MAX_ROWS) :
    ∃ t2, Main.executeInsert st t = (t2, none) ∧
      t2.numRows = t.numRows + 1 ∧
      ∀ i, i < t.numRows →
        (t2.rowSlotRead i).2 = (t.rowSlotRead i).2 := by
  simp only [Main.executeInsert, if_neg (by omega : ¬ t.numRows ≥ TABLE_MAX_ROWS), hrow]
  refine ⟨_, rfl, rfl, ?_⟩
  intro i hi
  have h14 : i % ROWS_PER_PAGE < 14 := by
    rw [ROWS_PER_PAGE_eq]; exact Nat.mod_lt i (by omega)
  simp only [Main.Table.rowSlotWrite, Main.Table.rowSlotRead, setPage]
  by_cases hpg : i / ROWS_PER_PAGE = t.numRows / ROWS_PER_PAGE
  · -- same page: the write lands at a strictly later offset in the page
    have hmodlt : i % ROWS_PER_PAGE < t.numRows % ROWS_PER_PAGE := by
      rw [ROWS_PER_PAGE_eq] at *
      omega
    rw [if_pos hpg, hpg, Option.getD_some]
    set page := (t.pages (t.numRows / ROWS_PER_PAGE)).getD zeroPage with hpagedef
    have hplen : page.length = PAGE_SIZE := by
      cases hpage : t.pages (t.numRows / ROWS_PER_PAGE) with
      | none => rw [hpagedef, hpage, Option.getD_none]; exact zeroPage_length
      | some q => rw [hpagedef, hpage, Option.getD_some]; exact hT _ _ hpage
    apply slice_write_frame_before
    · rw [hplen, ROWS_PER_PAGE_eq, ROW_SIZE_eq, show PAGE_SIZE = 4096 from rfl] at *
      have := Nat.mod_lt t.numRows (show 0 < 14 from by omega)
      omega
    · rw [ROWS_PER_PAGE_eq, ROW_SIZE_eq] at *
      omega
  · -- different page: the page holding slot i is untouched
    rw [if_neg hpg]

/-- C9 witness: instantiated at a one-row table with no cached pages. -/
theorem claim_C9_insert_frame_witness :
    ∃ t2, Main.executeInsert stmt0 { numRows := 1, pages := fun _ => none } = (t2, none) ∧
      t2.numRows = ({ numRows := 1, pages := fun _ => none } : Main.Table).numRows + 1 ∧
      ∀ i, i < ({ numRows := 1, pages := fun _ => none } : Main.Table).numRows →
        (t2.rowSlotRead i).2 =
          (({ numRows := 1, pages := fun _ => none } : Main.Table).rowSlotRead i).2 :=
  claim_C9_insert_frame stmt0 row0 { numRows := 1, pages := fun _ => none } rfl
    (by decide) (fun _ page h => by simp at h) (by decide)

/-! ### State reached by inserting records into a table opened on an empty
file (claims C1 and C3).

`pageFromRows rows j` is the in-memory content of page `j` after inserting
`rows` in order: the serialized rows that fall on page `j`, padded with zeros
to `PAGE_SIZE`.  `stateAfter rows` is the full table state; its cached pages
are exactly those that hold at least one row, and nothing has been flushed
yet. -/

def WFRows (rows : List Row) : Prop := ∀ r ∈ rows, r.WF

def pageFromRows (rows : List Row) (j : Nat) : List Nat :=
  let content :=
    (((rows.drop (ROWS_PER_PAGE * j)).take ROWS_PER_PAGE).map Row.serialize).flatten
  content ++ List.replicate (PAGE_SIZE - content.length) 0

def pagesAfter (rows : List Row) : Nat → Option (List Nat) :=
  fun j => if ROWS_PER_PAGE * j < rows.length then some (pageFromRows rows j) else none

def stateAfter (rows : List Row) : Table :=
  { numRows := rows.length
  , pager := { fileBytes := [], fileLength := 0, pages := pagesAfter rows } }

theorem WFRows_drop {rows : List Row} (h : WFRows rows) (n : Nat) :
    WFRows (rows.drop n) :=
  fun r hr => h r (List.mem_of_mem_drop hr)

theorem WFRows_take {rows : List Row} (h : WFRows rows) (n : Nat) :
    WFRows (rows.take n) :=
  fun r hr => h r (List.mem_of_mem_take hr)

theorem flatten_map_serialize_length {rows : List Row} (h : WFRows rows) :
    ((rows.map Row.serialize).flatten).length = ROW_SIZE * rows.length := by
  induction rows with
  | nil => simp
  | cons r rs ih =>
      have hr : r.WF := h r (List.mem_cons_self r rs)
      have hrs : WFRows rs := fun x hx => h x (List.mem_cons_of_mem r hx)
      simp only [List.map_cons, List.flatten_cons, List.length_append,
        Row.serialize_length hr, ih hrs, List.length_cons]
      ring

theorem pageContent_length {rows : List Row} (h : WFRows rows) (j : Nat) :
    ((((rows.drop (ROWS_PER_PAGE * j)).take ROWS_PER_PAGE).map Row.serialize).flatten).length
      = ROW_SIZE * min ROWS_PER_PAGE (rows.length - ROWS_PER_PAGE * j) := by
  rw [flatten_map_serialize_length (WFRows_take (WFRows_drop h _) _)]
  simp [List.length_take, List.length_drop]

theorem pageFromRows_length {rows : List Row} (h : WFRows rows) (j : Nat) :
    (pageFromRows rows j).length = PAGE_SIZE := by
  simp only [pageFromRows, List.length_append, List.length_replicate,
    pageContent_length h j]
  have : min ROWS_PER_PAGE (rows.length - ROWS_PER_PAGE * j) ≤ ROWS_PER_PAGE :=
    Nat.min_le_left _ _
  rw [ROW_SIZE_eq, ROWS_PER_PAGE_eq, show PAGE_SIZE = 4096 from rfl] at *
  omega

theorem readPageBytes_nil (n : Nat) : readPageBytes [] n = zeroPage := by
  simp [readPageBytes, zeroPage]

/-- A page past the populated range is all zeros. -/
theorem pageFromRows_of_ge {rows : List Row} {j : Nat}
    (h : rows.length ≤ ROWS_PER_PAGE * j) : pageFromRows rows j = zeroPage := by
  simp [pageFromRows, List.drop_of_length_le h, zeroPage]

theorem setPage_setPage (f : Nat → Option (List Nat)) (i : Nat)
    (v w : Option (List Nat)) : setPage (setPage f i v) i w = setPage f i w := by
  funext j
  simp only [setPage]
  by_cases hj : j = i <;> simp [hj]

/-- Writing one serialized row into the slot `num_rows % 14` of page
`num_rows / 14` turns that page's content into the content for the extended
row list. -/
theorem pageStep (pre : List Row) (r : Row) (hWF : WFRows pre) (hr : r.WF) :
    (pageFromRows pre (pre.length / ROWS_PER_PAGE)).take
        ((pre.length % ROWS_PER_PAGE) * ROW_SIZE)
      ++ r.serialize
      ++ (pageFromRows pre (pre.length / ROWS_PER_PAGE)).drop
            ((pre.length % ROWS_PER_PAGE) * ROW_SIZE + ROW_SIZE)
      = pageFromRows (pre ++ [r]) (pre.length / ROWS_PER_PAGE) := by
  have hdivle : ROWS_PER_PAGE * (pre.length / ROWS_PER_PAGE) ≤ pre.length := by
    rw [ROWS_PER_PAGE_eq]; omega
  have hmod : pre.length - ROWS_PER_PAGE * (pre.length / ROWS_PER_PAGE)
      = pre.length % ROWS_PER_PAGE := by
    rw [ROWS_PER_PAGE_eq]; omega
  have hdt : (pre.drop (ROWS_PER_PAGE * (pre.length / ROWS_PER_PAGE))).take ROWS_PER_PAGE
      = pre.drop (ROWS_PER_PAGE * (pre.length / ROWS_PER_PAGE)) := by
    apply List.take_of_length_le
    rw [List.length_drop, hmod, ROWS_PER_PAGE_eq]
    omega
  have hc : (((pre.drop (ROWS_PER_PAGE * (pre.length / ROWS_PER_PAGE))).map
        Row.serialize).flatten).length = (pre.length % ROWS_PER_PAGE) * ROW_SIZE := by
    rw [flatten_map_serialize_length (WFRows_drop hWF _), List.length_drop, hmod,
      Nat.mul_comm]
  have hsnoc : (pre ++ [r]).drop (ROWS_PER_PAGE * (pre.length / ROWS_PER_PAGE))
      = pre.drop (ROWS_PER_PAGE * (pre.length / ROWS_PER_PAGE)) ++ [r] :=
    List.drop_append_of_le_length hdivle
  have hdt2 : ((pre ++ [r]).drop (ROWS_PER_PAGE * (pre.length / ROWS_PER_PAGE))).take
        ROWS_PER_PAGE
      = pre.drop (ROWS_PER_PAGE * (pre.length / ROWS_PER_PAGE)) ++ [r] := by
    rw [hsnoc]
    apply List.take_of_length_le
    rw [List.length_append, List.length_drop, hmod, ROWS_PER_PAGE_eq]
    have : pre.length % 14 < 14 := Nat.mod_lt _ (by omega)
    simp only [List.length_cons, List.length_nil]
    omega
  simp only [pageFromRows, hdt, hdt2, List.map_append, List.flatten_append,
    List.map_cons, List.map_nil, List.flatten_cons, List.flatten_nil,
    List.append_nil]
  rw [List.take_left' hc]
  rw [show (pre.length % ROWS_PER_PAGE) * ROW_SIZE + ROW_SIZE
        = (((pre.drop (ROWS_PER_PAGE * (pre.length / ROWS_PER_PAGE))).map
            Row.serialize).flatten).length + ROW_SIZE by rw [hc]]
  rw [List.drop_append, List.drop_replicate]
  rw [List.length_append, Row.serialize_length hr]
  rw [Nat.sub_sub]

/-- Updating the cached-page map at the current insertion page produces the
cached-page map for the extended row list. -/
theorem pagesAfter_snoc (pre : List Row) (r : Row) :
    setPage (pagesAfter pre) (pre.length / ROWS_PER_PAGE)
        (some (pageFromRows (pre ++ [r]) (pre.length / ROWS_PER_PAGE)))
      = pagesAfter (pre ++ [r]) := by
  funext j'
  simp only [setPage, pagesAfter, List.length_append, List.length_cons,
    List.length_nil]
  by_cases hj : j' = pre.length / ROWS_PER_PAGE
  · rw [if_pos hj, if_pos ?_, hj]
    rw [hj, ROWS_PER_PAGE_eq]
    omega
  · rw [if_neg hj]
    by_cases hlt : ROWS_PER_PAGE * j' < pre.length
    · have hframe : ROWS_PER_PAGE * j' + ROWS_PER_PAGE ≤ pre.length := by
        rw [ROWS_PER_PAGE_eq] at hj hlt ⊢
        omega
      rw [if_pos hlt, if_pos (by omega)]
      have hle : ROWS_PER_PAGE * j' ≤ pre.length := by omega
      simp only [pageFromRows]
      rw [List.drop_append_of_le_length hle,
        List.take_append_of_le_length (by rw [List.length_drop]; omega)]
    · rw [if_neg hlt, if_neg ?_]
      rw [ROWS_PER_PAGE_eq] at hj hlt ⊢
      omega

/-- Evaluating `get_page` in the post-insertion state: the requested page is
returned (loaded as all-zero if it held no row yet) and the cache records
it. -/
theorem getPage_stateAfter (rows : List Row) (j : Nat) (hj : j < TABLE_MAX_PAGES) :
    (stateAfter rows).pager.getPage j =
      .ok { fileBytes := [], fileLength := 0
          , pages := setPage (pagesAfter rows) j (some (pageFromRows rows j)) }
          (pageFromRows rows j) := by
  have hng : ¬ j > TABLE_MAX_PAGES := by omega
  by_cases hpop : ROWS_PER_PAGE * j < rows.length
  · have hpj : pagesAfter rows j = some (pageFromRows rows j) := if_pos hpop
    have hpages : setPage (pagesAfter rows) j (some (pageFromRows rows j))
        = pagesAfter rows := by
      funext j'
      simp only [setPage]
      by_cases hj' : j' = j
      · rw [if_pos hj', hj', hpj]
      · rw [if_neg hj']
    simp only [Pager.getPage, stateAfter]
    rw [if_neg hng, if_pos hj, hpj, hpages]
  · have hpj : pagesAfter rows j = none := if_neg hpop
    have hzero : pageFromRows rows j = zeroPage := pageFromRows_of_ge (by omega)
    simp only [Pager.getPage, stateAfter]
    rw [if_neg hng, if_pos hj, hpj]
    have hnp : (0 + PAGE_SIZE - 1) / PAGE_SIZE = 0 := by norm_num [PAGE_SIZE]
    rw [hnp, hzero]
    by_cases hj0 : j ≤ 0
    · rw [if_pos hj0]
      rw [show j = 0 by omega, readPageBytes_nil]
    · rw [if_neg hj0]

/-- One `insertRow` on the post-insertion state extends it by one record. -/
theorem insertRow_stateAfter (pre : List Row) (r : Row)
    (hWF : WFRows pre) (hr : r.WF) (hlen : pre.length < TABLE_MAX_ROWS) :
    (stateAfter pre).insertRow r = some (stateAfter (pre ++ [r])) := by
  have hj100 : pre.length / ROWS_PER_PAGE < TABLE_MAX_PAGES := by
    rw [ROWS_PER_PAGE_eq, show TABLE_MAX_PAGES = 100 from rfl]
    rw [TABLE_MAX_ROWS_eq] at hlen
    omega
  have hget := getPage_stateAfter pre (pre.length / ROWS_PER_PAGE) hj100
  simp only [stateAfter] at hget
  simp only [Table.insertRow, Table.rowSlotWrite, stateAfter]
  rw [hget]
  simp only [Option.map_some]
  have hpages2 :
      setPage (setPage (pagesAfter pre) (pre.length / ROWS_PER_PAGE)
          (some (pageFromRows pre (pre.length / ROWS_PER_PAGE))))
        (pre.length / ROWS_PER_PAGE)
        (some ((pageFromRows pre (pre.length / ROWS_PER_PAGE)).take
            ((pre.length % ROWS_PER_PAGE) * ROW_SIZE)
          ++ r.serialize
          ++ (pageFromRows pre (pre.length / ROWS_PER_PAGE)).drop
              ((pre.length % ROWS_PER_PAGE) * ROW_SIZE + ROW_SIZE)))
      = pagesAfter (pre ++ [r]) := by
    rw [setPage_setPage, pageStep pre r hWF hr, pagesAfter_snoc]
  rw [hpages2]
  simp [List.length_append]

theorem insertAll_stateAfter (rows : List Row) : ∀ pre : List Row,
    WFRows (pre ++ rows) → (pre ++ rows).length ≤ TABLE_MAX_ROWS →
    (stateAfter pre).insertAll rows = some (stateAfter (pre ++ rows)) := by
  induction rows with
  | nil =>
      intro pre _ _
      simp [Table.insertAll]
  | cons r rs ih =>
      intro pre hWF hlen
      have hWFpre : WFRows pre := fun x hx => hWF x (by simp [hx])
      have hr : r.WF := hWF r (by simp)
      have hprelen : pre.length < TABLE_MAX_ROWS := by
        simp only [List.length_append, List.length_cons] at hlen
        omega
      have step := insertRow_stateAfter pre r hWFpre hr hprelen
      have hassoc : pre ++ r :: rs = (pre ++ [r]) ++ rs := by simp
      have h2 := ih (pre ++ [r]) (by rw [← hassoc]; exact hWF)
        (by rw [← hassoc]; exact hlen)
      simp only [Table.insertAll, List.foldlM_cons]
      rw [step]
      simp only [Table.insertAll] at h2
      rw [hassoc]
      exact h2

theorem tableNew_nil : Table.new [] = stateAfter [] := by
  simp only [Table.new, Pager.new, stateAfter]
  have : pagesAfter [] = fun _ => none := by
    funext j
    simp [pagesAfter]
  rw [this]
  rfl

/-- What teardown leaves on disk: the fully populated pages in full (their
22-byte zero tail included), then the occupied prefix of the partial final
page. -/
def diskFile (rows : List Row) : List Nat :=
  ((List.range (rows.length / ROWS_PER_PAGE)).map (pageFromRows rows)).flatten
    ++ ((rows.drop (ROWS_PER_PAGE * (rows.length / ROWS_PER_PAGE))).map
          Row.serialize).flatten

theorem range_flatten_length {rows : List Row} (hWF : WFRows rows) (n : Nat) :
    (((List.range n).map (pageFromRows rows)).flatten).length = n * PAGE_SIZE := by
  induction n with
  | zero => simp
  | succ m ih =>
      rw [List.range_succ]
      simp only [List.map_append, List.flatten_append, List.length_append, ih,
        List.map_cons, List.map_nil, List.flatten_cons, List.flatten_nil,
        List.append_nil, pageFromRows_length hWF]
      ring

theorem writeAt_at_end (file data : List Nat) :
    writeAt file file.length data = file ++ data := by
  simp [writeAt, List.drop_of_length_le]

theorem Pager.flush_some {p : Pager} {i : Nat} {page : List Nat}
    (h : p.pages i = some page) (size : Nat) :
    p.flush i size =
      { p with fileBytes := writeAt p.fileBytes (i * PAGE_SIZE) (page.take size) } := by
  unfold Pager.flush
  rw [h]

/-- Effect of the full-page flush loop on the freshly inserted state: the
first `n` pages land on disk in order and their slots are cleared. -/
theorem flushFullPages_stateAfter (rows : List Row) (hWF : WFRows rows) :
    ∀ n, n ≤ rows.length / ROWS_PER_PAGE →
    flushFullPages (stateAfter rows).pager n =
      { fileBytes := ((List.range n).map (pageFromRows rows)).flatten
      , fileLength := 0
      , pages := fun j => if j < n then none else pagesAfter rows j } := by
  intro n
  induction n with
  | zero =>
      intro _
      simp only [flushFullPages, stateAfter, List.range_zero, List.map_nil,
        List.flatten_nil]
      congr 1
  | succ m ih =>
      intro hm
      have hmq : m ≤ rows.length / ROWS_PER_PAGE := by omega
      have hpop : ROWS_PER_PAGE * m < rows.length := by
        rw [ROWS_PER_PAGE_eq] at *
        omega
      have hslot :
          ({ fileBytes := ((List.range m).map (pageFromRows rows)).flatten
           , fileLength := 0
           , pages := fun j => if j < m then none else pagesAfter rows j } : Pager).pages m
            = some (pageFromRows rows m) := by
        show (if m < m then none else pagesAfter rows m) = some (pageFromRows rows m)
        rw [if_neg (by omega)]
        exact if_pos hpop
      simp only [flushFullPages, ih hmq]
      rw [Pager.flush_some hslot]
      simp only [Pager.clearSlot]
      rw [List.take_of_length_le (le_of_eq (pageFromRows_length hWF m))]
      rw [show m * PAGE_SIZE = (((List.range m).map (pageFromRows rows)).flatten).length from
        (range_flatten_length hWF m).symm]
      rw [writeAt_at_end]
      congr 1
      · rw [List.range_succ]
        simp [List.map_append]
      · funext j
        simp only [setPage]
        by_cases hj : j = m
        · rw [if_pos hj, if_pos (by omega)]
        · rw [if_neg hj]
          by_cases hjm : j < m
          · rw [if_pos hjm, if_pos (by omega)]
          · rw [if_neg hjm, if_neg (by omega)]

/-- Tearing down the freshly inserted state writes exactly `diskFile rows` to
the backing file. -/
theorem dropTable_stateAfter (rows : List Row) (hWF : WFRows rows) :
    (stateAfter rows).dropTable.fileBytes = diskFile rows := by
  have hflush := flushFullPages_stateAfter rows hWF (rows.length / ROWS_PER_PAGE) le_rfl
  simp only [Table.dropTable]
  rw [show (stateAfter rows).numRows = rows.length from rfl, hflush]
  by_cases hr : 0 < rows.length % ROWS_PER_PAGE
  · have hpop : ROWS_PER_PAGE * (rows.length / ROWS_PER_PAGE) < rows.length := by
      rw [ROWS_PER_PAGE_eq] at *
      omega
    have hslot :
        ({ fileBytes := ((List.range (rows.length / ROWS_PER_PAGE)).map
              (pageFromRows rows)).flatten
         , fileLength := 0
         , pages := fun j => if j < rows.length / ROWS_PER_PAGE then none
             else pagesAfter rows j } : Pager).pages (rows.length / ROWS_PER_PAGE)
          = some (pageFromRows rows (rows.length / ROWS_PER_PAGE)) := by
      show (if rows.length / ROWS_PER_PAGE < rows.length / ROWS_PER_PAGE then none
          else pagesAfter rows (rows.length / ROWS_PER_PAGE))
        = some (pageFromRows rows (rows.length / ROWS_PER_PAGE))
      rw [if_neg (by omega)]
      exact if_pos hpop
    rw [if_pos hr, hslot]
    rw [Pager.flush_some hslot]
    have hdt : (rows.drop (ROWS_PER_PAGE * (rows.length / ROWS_PER_PAGE))).take
          ROWS_PER_PAGE
        = rows.drop (ROWS_PER_PAGE * (rows.length / ROWS_PER_PAGE)) := by
      apply List.take_of_length_le
      rw [List.length_drop, ROWS_PER_PAGE_eq] at *
      omega
    have hc : (((rows.drop (ROWS_PER_PAGE * (rows.length / ROWS_PER_PAGE))).map
          Row.serialize).flatten).length
        = rows.length % ROWS_PER_PAGE * ROW_SIZE := by
      rw [flatten_map_serialize_length (WFRows_drop hWF _), List.length_drop]
      rw [ROWS_PER_PAGE_eq] at *
      rw [Nat.mul_comm]
      congr 1
      omega
    have htake : (pageFromRows rows (rows.length / ROWS_PER_PAGE)).take
          (rows.length % ROWS_PER_PAGE * ROW_SIZE)
        = ((rows.drop (ROWS_PER_PAGE * (rows.length / ROWS_PER_PAGE))).map
            Row.serialize).flatten := by
      simp only [pageFromRows, hdt]
      exact List.take_left' hc
    rw [htake]
    rw [show (rows.length / ROWS_PER_PAGE) * PAGE_SIZE
          = (((List.range (rows.length / ROWS_PER_PAGE)).map
              (pageFromRows rows)).flatten).length from
      (range_flatten_length hWF _).symm]
    rw [writeAt_at_end]
    rfl
  · rw [if_neg hr]
    have hdropnil : rows.drop (ROWS_PER_PAGE * (rows.length / ROWS_PER_PAGE)) = [] := by
      apply List.drop_of_length_le
      rw [ROWS_PER_PAGE_eq] at *
      omega
    simp only [diskFile, hdropnil, List.map_nil, List.flatten_nil, List.append_nil]

/-- Length of the teardown file image. -/
theorem diskFile_length (rows : List Row) (hWF : WFRows rows) :
    (diskFile rows).length
      = (rows.length / ROWS_PER_PAGE) * PAGE_SIZE
        + (rows.length % ROWS_PER_PAGE) * ROW_SIZE := by
  simp only [diskFile, List.length_append, range_flatten_length hWF,
    flatten_map_serialize_length (WFRows_drop hWF _), List.length_drop]
  rw [ROWS_PER_PAGE_eq]
  rw [Nat.mul_comm ROW_SIZE _]
  congr 2
  omega

/-- C3: inserting a number of records that is not a multiple of 14 into a
table opened on an empty file and tearing it down leaves a backing file of
exactly `(num_rows / 14) * 4096 + (num_rows % 14) * 291` bytes: full pages are
flushed whole, the one partial page only up to its last real row, and nothing
else is written. -/
theorem claim_C3_teardown_file_length (rows : List Row) (hWF : ∀ r ∈ rows, r.WF)
    (hlen : rows.length ≤ TABLE_MAX_ROWS)
    (hmod : rows.length % ROWS_PER_PAGE ≠ 0) :
    ((Table.new []).insertAll rows).map (fun t => t.dropTable.fileBytes.length)
      = some ((rows.length / ROWS_PER_PAGE) * PAGE_SIZE
          + (rows.length % ROWS_PER_PAGE) * ROW_SIZE) := by
  have hins := insertAll_stateAfter rows [] (by simpa using hWF) (by simpa using hlen)
  rw [tableNew_nil]
  simp only [List.nil_append] at hins
  rw [hins]
  simp only [Option.map_some']
  rw [dropTable_stateAfter rows hWF, diskFile_length rows hWF]

/-- C3 witness: a single inserted record leaves a 291-byte file. -/
theorem claim_C3_teardown_file_length_witness :
    ((Table.new []).insertAll [row0]).map (fun t => t.dropTable.fileBytes.length)
      = some (([row0].length / ROWS_PER_PAGE) * PAGE_SIZE
          + ([row0].length % ROWS_PER_PAGE) * ROW_SIZE) :=
  claim_C3_teardown_file_length [row0] (by decide) (by decide) (by decide)

/-- Extracting block `o` from a concatenation of equal-length blocks (with an
arbitrary suffix). -/
theorem blocksExtract (L : Nat) (blocks : List (List Nat)) (z : List Nat)
    (hlen : ∀ b ∈ blocks, b.length = L) :
    ∀ o (ho : o < blocks.length),
      ((blocks.flatten ++ z).drop (L * o)).take L = blocks.get ⟨o, ho⟩ := by
  induction blocks with
  | nil =>
      intro o ho
      exact absurd ho (by simp)
  | cons b bs ih =>
      intro o ho
      have hb : b.length = L := hlen b (List.mem_cons_self b bs)
      cases o with
      | zero =>
          simp only [Nat.mul_zero, List.drop_zero, List.flatten_cons,
            List.append_assoc]
          rw [List.take_append_of_le_length (le_of_eq hb.symm),
            List.take_of_length_le (le_of_eq hb)]
          rfl
      | succ o2 =>
          have hbs : ∀ x ∈ bs, x.length = L :=
            fun x hx => hlen x (List.mem_cons_of_mem b hx)
          have ho2 : o2 < bs.length := by simpa using ho
          rw [List.flatten_cons, List.append_assoc,
            show L * (o2 + 1) = b.length + L * o2 by rw [hb]; ring,
            List.drop_append]
          exact ih hbs o2 ho2

/-- Reading page `j` back from the teardown file image recovers exactly the
in-memory page that was flushed. -/
theorem readPage_diskFile (rows : List Row) (hWF : WFRows rows) (j : Nat)
    (hj : ROWS_PER_PAGE * j < rows.length) :
    readPageBytes (diskFile rows) j = pageFromRows rows j := by
  have hjq : j ≤ rows.length / ROWS_PER_PAGE := by
    rw [ROWS_PER_PAGE_eq] at *
    omega
  rcases Nat.lt_or_ge j (rows.length / ROWS_PER_PAGE) with hlt | hge
  · have hblocks : ∀ b ∈ (List.range (rows.length / ROWS_PER_PAGE)).map
        (pageFromRows rows), b.length = PAGE_SIZE := by
      intro b hb
      obtain ⟨i, -, rfl⟩ := List.mem_map.mp hb
      exact pageFromRows_length hWF _
    have hext := blocksExtract PAGE_SIZE
      ((List.range (rows.length / ROWS_PER_PAGE)).map (pageFromRows rows))
      (((rows.drop (ROWS_PER_PAGE * (rows.length / ROWS_PER_PAGE))).map
          Row.serialize).flatten)
      hblocks j (by simpa using hlt)
    have hget : ((List.range (rows.length / ROWS_PER_PAGE)).map
          (pageFromRows rows)).get ⟨j, by simpa using hlt⟩ = pageFromRows rows j := by
      simp
    rw [hget] at hext
    simp only [readPageBytes, diskFile, Nat.mul_comm j PAGE_SIZE, hext,
      pageFromRows_length hWF j, Nat.sub_self, List.replicate_zero,
      List.append_nil]
  · have hq : j = rows.length / ROWS_PER_PAGE := by omega
    subst hq
    have hflen : (((List.range (rows.length / ROWS_PER_PAGE)).map
          (pageFromRows rows)).flatten).length
        = (rows.length / ROWS_PER_PAGE) * PAGE_SIZE := range_flatten_length hWF _
    have hdt : (rows.drop (ROWS_PER_PAGE * (rows.length / ROWS_PER_PAGE))).take
          ROWS_PER_PAGE
        = rows.drop (ROWS_PER_PAGE * (rows.length / ROWS_PER_PAGE)) := by
      apply List.take_of_length_le
      rw [List.length_drop, ROWS_PER_PAGE_eq] at *
      omega
    have hc : (((rows.drop (ROWS_PER_PAGE * (rows.length / ROWS_PER_PAGE))).map
          Row.serialize).flatten).length
        = (rows.length - ROWS_PER_PAGE * (rows.length / ROWS_PER_PAGE)) * ROW_SIZE := by
      rw [flatten_map_serialize_length (WFRows_drop hWF _), List.length_drop,
        Nat.mul_comm]
    have hcle : (((rows.drop (ROWS_PER_PAGE * (rows.length / ROWS_PER_PAGE))).map
          Row.serialize).flatten).length ≤ PAGE_SIZE := by
      rw [hc, ROWS_PER_PAGE_eq, ROW_SIZE_eq, show PAGE_SIZE = 4096 from rfl] at *
      have : rows.length - 14 * (rows.length / 14) < 14 := by omega
      omega
    simp only [readPageBytes, diskFile, pageFromRows, hdt, List.drop_left' hflen,
      List.take_of_length_le hcle]

/-- Extracting row `i` from its reloaded page yields its serialized bytes. -/
theorem slot_pageFromRows (rows : List Row) (hWF : WFRows rows) (i : Nat)
    (hi : i < rows.length) :
    ((pageFromRows rows (i / ROWS_PER_PAGE)).drop
        ((i % ROWS_PER_PAGE) * ROW_SIZE)).take ROW_SIZE
      = Row.serialize (rows.get ⟨i, hi⟩) := by
  have hblocks : ∀ b ∈ ((rows.drop (ROWS_PER_PAGE * (i / ROWS_PER_PAGE))).take
      ROWS_PER_PAGE).map Row.serialize, b.length = ROW_SIZE := by
    intro b hb
    obtain ⟨r, hr, rfl⟩ := List.mem_map.mp hb
    exact Row.serialize_length (hWF r (List.mem_of_mem_drop (List.mem_of_mem_take hr)))
  have ho : i % ROWS_PER_PAGE < (((rows.drop (ROWS_PER_PAGE * (i / ROWS_PER_PAGE))).take
      ROWS_PER_PAGE).map Row.serialize).length := by
    simp only [List.length_map, List.length_take, List.length_drop]
    rw [ROWS_PER_PAGE_eq] at *
    have h1 : i % 14 < 14 := Nat.mod_lt i (by omega)
    have h2 : 14 * (i / 14) + i % 14 = i := by omega
    omega
  have hext := blocksExtract ROW_SIZE
    (((rows.drop (ROWS_PER_PAGE * (i / ROWS_PER_PAGE))).take ROWS_PER_PAGE).map
      Row.serialize)
    (List.replicate (PAGE_SIZE -
      ((((rows.drop (ROWS_PER_PAGE * (i / ROWS_PER_PAGE))).take ROWS_PER_PAGE).map
        Row.serialize).flatten).length) 0)
    hblocks (i % ROWS_PER_PAGE) ho
  have hget : ((((rows.drop (ROWS_PER_PAGE * (i / ROWS_PER_PAGE))).take
        ROWS_PER_PAGE).map Row.serialize).get ⟨i % ROWS_PER_PAGE, ho⟩)
      = Row.serialize (rows.get ⟨i, hi⟩) := by
    have hidx : ROWS_PER_PAGE * (i / ROWS_PER_PAGE) + i % ROWS_PER_PAGE = i := by
      rw [ROWS_PER_PAGE_eq]
      omega
    simp only [List.get_eq_getElem, List.getElem_map, List.getElem_take,
      List.getElem_drop]
    simp only [hidx]
  rw [hget] at hext
  simp only [pageFromRows]
  rw [Nat.mul_comm (i % ROWS_PER_PAGE) ROW_SIZE]
  exact hext

/-- Reading row `i` from a table reopened on the teardown image returns the
serialized bytes of the `i`-th inserted record. -/
theorem readRow_diskFile (rows : List Row) (hWF : WFRows rows)
    (hlen : rows.length ≤ TABLE_MAX_ROWS) (i : Nat) (hi : i < rows.length) :
    ((Table.new (diskFile rows)).rowSlotGet i).map Prod.snd
      = some (Row.serialize (rows.get ⟨i, hi⟩)) := by
  have hj100 : i / ROWS_PER_PAGE < TABLE_MAX_PAGES := by
    rw [ROWS_PER_PAGE_eq, show TABLE_MAX_PAGES = 100 from rfl]
    rw [TABLE_MAX_ROWS_eq] at hlen
    omega
  have hjpop : ROWS_PER_PAGE * (i / ROWS_PER_PAGE) < rows.length := by
    rw [ROWS_PER_PAGE_eq] at *
    omega
  have hcond : i / ROWS_PER_PAGE ≤ ((diskFile rows).length + PAGE_SIZE - 1) / PAGE_SIZE := by
    rw [diskFile_length rows hWF]
    rw [ROWS_PER_PAGE_eq, show PAGE_SIZE = 4096 from rfl] at *
    rw [ROW_SIZE_eq]
    omega
  simp only [Table.rowSlotGet, Table.new, Pager.new, Pager.getPage]
  rw [if_neg (by omega), if_pos hj100]
  simp only [if_pos hcond]
  rw [readPage_diskFile rows hWF _ hjpop]
  simp only [Option.map_some']
  rw [slot_pageFromRows rows hWF i hi]

/-- C1 (amended): for `0 < N ≤ 195`, inserting `N` records through `row_slot`
into a table opened on an empty file, flushing via teardown and reopening
yields `num_rows = N`, and deserializing row slots `0 .. N-1` returns the same
records in insertion order.  (Beyond 195 rows the reopened count overshoots:
see the counterexample at `N = 196`.) -/
theorem claim_C1_persistence_amended (rows : List Row)
    (hWF : ∀ r ∈ rows, r.WF) (hpos : 0 < rows.length) (hlen : rows.length ≤ 195) :
    ∃ t, (Table.new []).insertAll rows = some t ∧
      (Table.new t.dropTable.fileBytes).numRows = rows.length ∧
      ∀ i (hi : i < rows.length),
        ((Table.new t.dropTable.fileBytes).rowSlotGet i).map
            (fun s => Row.deserialize s.2)
          = some (rows.get ⟨i, hi⟩) := by
  have hlen14 : rows.length ≤ TABLE_MAX_ROWS := by
    rw [TABLE_MAX_ROWS_eq]
    omega
  have hins := insertAll_stateAfter rows [] (by simpa using hWF) (by simpa using hlen14)
  simp only [List.nil_append] at hins
  rw [tableNew_nil]
  refine ⟨stateAfter rows, hins, ?_, ?_⟩
  · rw [dropTable_stateAfter rows hWF]
    show (diskFile rows).length / ROW_SIZE = rows.length
    rw [diskFile_length rows hWF, ROW_SIZE_eq, ROWS_PER_PAGE_eq,
      show PAGE_SIZE = 4096 from rfl]
    omega
  · intro i hi
    rw [dropTable_stateAfter rows hWF]
    have hread := readRow_diskFile rows hWF hlen14 i hi
    cases hslot : (Table.new (diskFile rows)).rowSlotGet i with
    | none =>
        rw [hslot] at hread
        simp at hread
    | some ts =>
        rw [hslot] at hread
        simp only [Option.map_some'] at hread ⊢
        have hts : ts.2 = Row.serialize (rows.get ⟨i, hi⟩) := by
          injection hread
        rw [hts, deserialize_serialize (hWF _ (List.get_mem rows i hi))]

/-- C1 witness for the amended claim, at a single record. -/
theorem claim_C1_persistence_amended_witness :
    ∃ t, (Table.new []).insertAll [row0] = some t ∧
      (Table.new t.dropTable.fileBytes).numRows = [row0].length ∧
      ∀ i (hi : i < [row0].length),
        ((Table.new t.dropTable.fileBytes).rowSlotGet i).map
            (fun s => Row.deserialize s.2)
          = some ([row0].get ⟨i, hi⟩) :=
  claim_C1_persistence_amended [row0] (by decide) (by decide) (by decide)

/-- C1 counterexample: inserting `N = 196` records (exactly 14 full pages)
and tearing down leaves a `14 * 4096 = 57344`-byte file, and reopening
computes `num_rows = 57344 / 291 = 197 ≠ 196` — the claim's `num_rows == N`
fails because each full page carries 22 bytes of slack that the
`file_length / row_size` recomputation misattributes to rows. -/
theorem claim_C1_persistence_counterexample :
    ((Table.new []).insertAll (List.replicate 196 row0)).map
        (fun t => (Table.new t.dropTable.fileBytes).numRows)
      = some 197 ∧ (197 : Nat) ≠ 196 := by
  refine ⟨?_, by decide⟩
  have hWF : WFRows (List.replicate 196 row0) := by
    intro r hr
    rw [List.eq_of_mem_replicate hr]
    decide
  have hlen : (List.replicate 196 row0).length ≤ TABLE_MAX_ROWS := by
    rw [List.length_replicate, TABLE_MAX_ROWS_eq]
    omega
  have hins := insertAll_stateAfter (List.replicate 196 row0) []
    (by simpa using hWF) (by simpa using hlen)
  simp only [List.nil_append] at hins
  have hnum : (Table.new
      (stateAfter (List.replicate 196 row0)).dropTable.fileBytes).numRows = 197 := by
    rw [dropTable_stateAfter _ hWF, Table.new_numRows]
    rw [diskFile_length _ hWF, List.length_replicate, ROW_SIZE_eq,
      ROWS_PER_PAGE_eq, show PAGE_SIZE = 4096 from rfl]
  rw [tableNew_nil, hins, Option.map_some', hnum]

/-! ### Statement parsing (src/tokenizer.rs lines 20-198; src/main.rs carries
an identical copy).

Tokens are produced as Rust's `split_whitespace` does: maximal runs of
non-whitespace characters, with empty tokens never emitted.  Byte strings are
modelled one byte per character, matching the source's own precondition
("Username and Email has to be ASCII ... 1 char = 1 byte"). -/

inductive PrepareError where
  | unrecognizedStatement (statement input : String)
  | invalidInput (input : String)
  | invalidId (id input : String)
  | negativeNumber (id input : String)
  | usernameTooLong (username input : String)
  | emailTooLong (email input : String)
deriving DecidableEq, Repr

def splitWhitespaceAux : List Char → List Char → List (List Char)
  | [], cur => if cur.isEmpty then [] else [cur.reverse]
  | c :: cs, cur =>
      if c.isWhitespace then
        if cur.isEmpty then splitWhitespaceAux cs []
        else cur.reverse :: splitWhitespaceAux cs []
      else splitWhitespaceAux cs (c :: cur)

/-- `str::split_whitespace`. -/
def splitWhitespace (s : String) : List String :=
  (splitWhitespaceAux s.data []).map fun cs => String.mk cs

/-- `str::starts_with(char)`. -/
def strStartsWith (s : String) (c : Char) : Bool :=
  match s.data with
  | [] => false
  | a :: _ => a = c

/-- The token's bytes (one byte per character, ASCII regime). -/
def strBytes (s : String) : List Nat :=
  s.data.map Char.toNat

/-- `str::parse::<u32>()`: an optional leading `+`, then one or more ASCII
digits, rejecting values outside `u32`. -/
def parseU32 (s : String) : Option Nat :=
  let chars := if strStartsWith s '+' then s.data.drop 1 else s.data
  if chars.isEmpty then none
  else if chars.all Char.isDigit then
    let n := chars.foldl (fun acc c => acc * 10 + (c.toNat - 48)) 0
    if n < 2 ^ 32 then some n else none
  else none

/-- `Statement::prepare_statement` (src/tokenizer.rs lines 144-198): pulls the
statement word, then — for `insert` — the id, username and email tokens from
the whitespace iterator, never touching tokens beyond the email. -/
def prepareStatement (input : String) : Except PrepareError Main.Statement :=
  match splitWhitespace input with
  | [] => .error (.invalidInput input)
  | statement :: parts1 =>
    if statement = "insert" then
      match parts1 with
      | [] => .error (.invalidInput input)
      | idTok :: parts2 =>
        if strStartsWith idTok '-' then .error (.negativeNumber idTok input)
        else
          match parseU32 idTok with
          | none => .error (.invalidId idTok input)
          | some id =>
            match parts2 with
            | [] => .error (.invalidInput input)
            | userTok :: parts3 =>
              if (strBytes userTok).length > COLUMN_USERNAME_SIZE then
                .error (.usernameTooLong userTok input)
              else
                let username := strBytes userTok
                  ++ List.replicate (USERNAME_SIZE - (strBytes userTok).length) 0
                match parts3 with
                | [] => .error (.invalidInput input)
                | emailTok :: _ =>
                  if (strBytes emailTok).length > COLUMN_EMAIL_SIZE then
                    .error (.emailTooLong emailTok input)
                  else
                    let email := strBytes emailTok
                      ++ List.replicate (EMAIL_SIZE - (strBytes emailTok).length) 0
                    .ok { stype := .insert
                        , row := some { id := id, username := username, email := email } }
    else if statement = "select" then
      .ok { stype := .select, row := none }
    else .error (.unrecognizedStatement statement input)

/-- C10: an `insert` line whose first four tokens are valid parses
successfully whatever trailing tokens follow the email — the tail `rest` never
reaches any check. -/
theorem claim_C10_extra_tokens_ignored (input idTok userTok emailTok : String)
    (rest : List String) (n : Nat)
    (hsplit : splitWhitespace input = "insert" :: idTok :: userTok :: emailTok :: rest)
    (hneg : strStartsWith idTok '-' = false)
    (hid : parseU32 idTok = some n)
    (hu : (strBytes userTok).length ≤ COLUMN_USERNAME_SIZE)
    (he : (strBytes emailTok).length ≤ COLUMN_EMAIL_SIZE) :
    prepareStatement input = .ok
      { stype := .insert
      , row := some
          { id := n
          , username := strBytes userTok
              ++ List.replicate (USERNAME_SIZE - (strBytes userTok).length) 0
          , email := strBytes emailTok
              ++ List.replicate (EMAIL_SIZE - (strBytes emailTok).length) 0 } } := by
  simp only [prepareStatement, hsplit, hid, if_true]
  rw [if_neg (by simp [hneg]), if_neg (by omega), if_neg (by omega)]

/-- C10 witness: two junk tokens after the email are ignored. -/
theorem claim_C10_extra_tokens_ignored_witness :
    prepareStatement "insert 7 al a@b x y" = .ok
      { stype := .insert
      , row := some
          { id := 7
          , username := strBytes "al"
              ++ List.replicate (USERNAME_SIZE - (strBytes "al").length) 0
          , email := strBytes "a@b"
              ++ List.replicate (EMAIL_SIZE - (strBytes "a@b").length) 0 } } :=
  claim_C10_extra_tokens_ignored "insert 7 al a@b x y" "7" "al" "a@b" ["x", "y"] 7
    (by decide) (by decide) (by decide) (by decide) (by decide)
